import Mathlib

/-!
Verification of the poppyio negotiation/exchange core against its source.

The definitions below are shallow embeddings of the TypeScript sources:
  - `arrayify`, `toCats` from `common-impl.ts` (src/unnamed/part_000),
  - the nested matching loop of `openRequest` (modal-service, src/unnamed/part_000),
  - the `performSend` / `performRecv` exchange sub-protocol state machines
    (common-impl.ts, src/unnamed/part_000),
  - the requester-side `onConnect` matching and the `x` cancellation routine of
    `createZImpl` (modal-request.ts, packed inside src/Jakefile.js).

JavaScript values are modelled by `JVal`; array identity is modelled by the
`Nat` id carried by the `varr` constructor (`[].concat(...)` always allocates a
fresh array, modelled by passing a fresh id).  The single named property the
core ever attaches to an array (`raw`, set by `arrayify`) is carried directly
on `varr`.  Promises are modelled by `PromiseState` with first-settlement-wins
`resolveWith` / `rejectWith`.  Event-driven code is modelled as explicit step
functions over state records, driven by lists of events.
-/

/-- A JavaScript value, as far as the poppyio core inspects one.  Arrays carry
an allocation id (object identity) and the optional `raw` property that
`arrayify` attaches; plain objects are association lists of properties. -/
inductive JVal where
  | vundefined
  | vnull
  | vbool (b : Bool)
  | vnum (n : Int)
  | vstr (s : String)
  | varr (id : Nat) (elems : List JVal) (raw : Option JVal)
  | vobj (fields : List (String × JVal))

/-- JavaScript truthiness (`!!v`), restricted to the values `JVal` models. -/
def truthy : JVal → Bool
  | .vundefined => false
  | .vnull => false
  | .vbool b => b
  | .vnum n => n != 0
  | .vstr s => s != ""
  | .varr _ _ _ => true
  | .vobj _ => true

/-- Whether `typeof v === 'object'` (note `typeof null === 'object'`). -/
def typeofObject : JVal → Bool
  | .vnull => true
  | .varr _ _ _ => true
  | .vobj _ => true
  | _ => false

/-- Test for `Array.isArray(v)`. -/
def isArrayVal : JVal → Bool
  | .varr _ _ _ => true
  | _ => false

/-- Property read `v[k]` on a plain object; `undefined` elsewhere (the core
only reads named properties off intent objects). -/
def getField : JVal → String → JVal
  | .vobj fields, k => ((fields.find? (fun p => p.fst == k)).map Prod.snd).getD .vundefined
  | _, _ => .vundefined

/-- Whether the property `k` is present on the value (`k in v`). -/
def hasField : JVal → String → Bool
  | .vobj fields, k => fields.any (fun p => p.fst == k)
  | _, _ => false

/-- Index read `v[i]` for array values; `undefined` elsewhere. -/
def getIdx : JVal → Nat → JVal
  | .varr _ elems _, i => elems.getD i .vundefined
  | _, _ => .vundefined

/-- Elements of an array value (empty list for non-arrays). -/
def elemsOf : JVal → List JVal
  | .varr _ es _ => es
  | _ => []

/-- The `raw` property of an array value. -/
def rawOf : JVal → Option JVal
  | .varr _ _ r => r
  | _ => none

/-- The allocation id (identity) of an array value. -/
def arrId : JVal → Option Nat
  | .varr i _ _ => some i
  | _ => none

/-- The function `arrayify` from common-impl.ts:
`let dataArray = [].concat(data === null || data === undefined ? [] : data);
 dataArray.raw = data; return dataArray;`
`fresh` is the id of the array allocated by `[].concat(...)`. -/
def arrayify (data : JVal) (fresh : Nat) : JVal :=
  let elems : List JVal :=
    match data with
    | .vnull => []
    | .vundefined => []
    | .varr _ es _ => es
    | d => [d]
  .varr fresh elems (some data)

/-- Side of an exchange. -/
inductive Side where
  | accepting
  | offering
  deriving DecidableEq, Repr

/-- A normalized single-form matchable unit (`Cat` in common-impl.ts); the
`connect` closure is behavioural and not part of the matching data. -/
structure Cat where
  side : Side
  form : String
  having : JVal

/-- A peer's declared option (`PeerIntent` in common.ts). -/
structure PeerIntent where
  origin : String
  side : Side
  form : String
  having : JVal

/-- The matching loop shared by the service (`openRequest`, part_000 lines
210-220): iterate own cats in order, inner-iterate peer options in order, and
unconditionally overwrite the tracked pairing on every eligible hit. -/
def matchCats (cats : List Cat) (opts : List PeerIntent) : Option (Cat × PeerIntent) :=
  cats.foldl
    (fun acc cat =>
      let oppositeSide := if cat.side = Side.accepting then Side.offering else Side.accepting
      opts.foldl
        (fun acc2 peerOption =>
          if peerOption.side = oppositeSide ∧ peerOption.form = cat.form then
            some (cat, peerOption)
          else acc2)
        acc)
    none

/-- Eligibility as the spec words it: opposite sides, exact string-equal form. -/
def eligiblePair (cat : Cat) (peerOption : PeerIntent) : Prop :=
  peerOption.side ≠ cat.side ∧ peerOption.form = cat.form

instance (cat : Cat) (p : PeerIntent) : Decidable (eligiblePair cat p) :=
  inferInstanceAs (Decidable (_ ∧ _))

/-- All eligible pairings in nested traversal order (own cats outer, peer
options inner). -/
def eligPairs (cats : List Cat) (opts : List PeerIntent) : List (Cat × PeerIntent) :=
  cats.flatMap fun c =>
    (opts.filter fun p => decide (eligiblePair c p)).map fun p => (c, p)

/-- Here `lastOr l acc` is the last element of `l`, or `acc` when `l` is empty:
the value of an overwrite-style fold started from `acc`. -/
def lastOr : List α → Option α → Option α
  | [], acc => acc
  | x :: xs, _ => lastOr xs (some x)

lemma lastOr_append (l₁ l₂ : List α) (acc : Option α) :
    lastOr (l₁ ++ l₂) acc = lastOr l₂ (lastOr l₁ acc) := by
  induction l₁ generalizing acc with
  | nil => rfl
  | cons x xs ih => simpa [lastOr] using ih (some x)

lemma lastOr_some_isSome (l : List α) (a : α) : (lastOr l (some a)).isSome := by
  induction l generalizing a with
  | nil => rfl
  | cons x xs ih => exact ih x

lemma lastOr_eq_getLast? (l : List α) : lastOr l none = l.getLast? := by
  have h : ∀ (l : List α) (a : α), lastOr l (some a) = (a :: l).getLast? := by
    intro l
    induction l with
    | nil => intro a; rfl
    | cons x xs ih =>
      intro a
      rw [List.getLast?_cons_cons]
      exact ih x
  cases l with
  | nil => rfl
  | cons x xs => simpa [lastOr] using h xs x

/-- An overwrite-style fold computes the last element satisfying the predicate
(or keeps the seed). -/
lemma foldl_overwrite (p : α → Prop) [DecidablePred p] (g : α → β) :
    ∀ (l : List α) (acc : Option β),
      l.foldl (fun a x => if p x then some (g x) else a) acc
        = lastOr ((l.filter fun x => decide (p x)).map g) acc := by
  intro l
  induction l with
  | nil => intro acc; rfl
  | cons x xs ih =>
    intro acc
    by_cases hx : p x
    · simp [List.foldl_cons, hx, List.filter_cons, lastOr, ih (some (g x))]
    · simp [List.foldl_cons, hx, List.filter_cons, ih acc]

lemma matchCats_eq_lastOr (cats : List Cat) (opts : List PeerIntent) :
    matchCats cats opts = lastOr (eligPairs cats opts) none := by
  have inner : ∀ (cat : Cat) (acc : Option (Cat × PeerIntent)),
      (opts.foldl
        (fun acc2 peerOption =>
          if peerOption.side = (if cat.side = Side.accepting then Side.offering else Side.accepting)
              ∧ peerOption.form = cat.form then
            some (cat, peerOption)
          else acc2)
        acc)
      = lastOr ((opts.filter fun p => decide (eligiblePair cat p)).map fun p => (cat, p)) acc := by
    intro cat acc
    have hcond : ∀ p : PeerIntent,
        (p.side = (if cat.side = Side.accepting then Side.offering else Side.accepting)
          ∧ p.form = cat.form) ↔ eligiblePair cat p := by
      intro p
      unfold eligiblePair
      cases hc : cat.side <;> cases hp : p.side <;> simp [hc, hp]
    have hfun :
        (fun (acc2 : Option (Cat × PeerIntent)) (peerOption : PeerIntent) =>
          if peerOption.side = (if cat.side = Side.accepting then Side.offering else Side.accepting)
              ∧ peerOption.form = cat.form then
            some (cat, peerOption)
          else acc2)
        = fun acc2 peerOption =>
          if eligiblePair cat peerOption then some (cat, peerOption) else acc2 := by
      funext acc2 peerOption
      exact if_congr (hcond peerOption) rfl rfl
    rw [hfun, foldl_overwrite (eligiblePair cat) (fun p => (cat, p)) opts acc]
  unfold matchCats
  have outer : ∀ (cs : List Cat) (acc : Option (Cat × PeerIntent)),
      cs.foldl
        (fun acc cat =>
          opts.foldl
            (fun acc2 peerOption =>
              if peerOption.side = (if cat.side = Side.accepting then Side.offering else Side.accepting)
                  ∧ peerOption.form = cat.form then
                some (cat, peerOption)
              else acc2)
            acc)
        acc
      = lastOr (eligPairs cs opts) acc := by
    intro cs
    induction cs with
    | nil => intro acc; rfl
    | cons c rest ih =>
      intro acc
      rw [List.foldl_cons, inner c acc, ih]
      show lastOr (eligPairs rest opts) _ = lastOr (eligPairs (c :: rest) opts) acc
      rw [show eligPairs (c :: rest) opts
            = ((opts.filter fun p => decide (eligiblePair c p)).map fun p => (c, p))
              ++ eligPairs rest opts from rfl,
          lastOr_append]
  exact outer cats none

lemma eligPairs_eq_nil_iff (cats : List Cat) (opts : List PeerIntent) :
    eligPairs cats opts = [] ↔ ∀ c ∈ cats, ∀ p ∈ opts, ¬ eligiblePair c p := by
  unfold eligPairs
  induction cats with
  | nil => simp
  | cons c rest ih =>
    simp only [List.flatMap_cons, List.append_eq_nil, ih, List.mem_cons]
    constructor
    · rintro ⟨h1, h2⟩ x hx p hp
      rcases hx with rfl | hx
      · intro he
        have : p ∈ (opts.filter fun q => decide (eligiblePair x q)) := by
          rw [List.mem_filter]
          exact ⟨hp, by simpa using he⟩
        rw [List.map_eq_nil_iff] at h1
        simp [h1] at this
      · exact h2 x hx p hp
    · intro h
      refine ⟨?_, fun x hx p hp => h x (Or.inr hx) p hp⟩
      rw [List.map_eq_nil_iff, List.filter_eq_nil_iff]
      intro p hp
      simpa using h c (Or.inl rfl) p hp

/-- C1: the Matcher, given ordered own Cats and ordered peer options, returns
the eligible pairing (opposite sides, exact case-sensitive string-equal form)
that occurs last in the nested traversal (own Cats outer in declared order,
peer options inner in declared order, later eligible findings overwriting
earlier ones), and returns none if and only if no eligible pair exists. -/
theorem matchCats_last_eligible (cats : List Cat) (opts : List PeerIntent) :
    matchCats cats opts = (eligPairs cats opts).getLast?
    ∧ (matchCats cats opts = none ↔ ∀ c ∈ cats, ∀ p ∈ opts, ¬ eligiblePair c p) := by
  have h := matchCats_eq_lastOr cats opts
  rw [lastOr_eq_getLast?] at h
  refine ⟨h, ?_⟩
  rw [h, ← eligPairs_eq_nil_iff cats opts]
  constructor
  · intro hnone
    cases he : eligPairs cats opts with
    | nil => rfl
    | cons x xs =>
      rw [he] at hnone
      rw [← lastOr_eq_getLast?] at hnone
      have hs := lastOr_some_isSome xs x
      rw [show lastOr (x :: xs) none = lastOr xs (some x) from rfl] at hnone
      rw [hnone] at hs
      cases hs
  · intro he
    rw [he]
    rfl

/-- Errors thrown by `toCats` (common-impl.ts).  The names follow the error
URL fragments in the source. -/
inductive MatcherErr where
  | MatcherNotAnObject
  | MatcherDoesNotHaveAcceptingXorOffering
  | MatcherFormNotAString
  deriving DecidableEq, Repr

/-- The shape `Array.isArray(x) ? x : [x]`, used by `toCats` both for the matcher list
and for the form-or-forms field. -/
def asList : JVal → List JVal
  | .varr _ es _ => es
  | v => [v]

/-- The inner form loop of `toCats`: for each form, a non-string throws
`MatcherFormNotAString`, a string pushes a `Cat` with that form. -/
def processForms (side : Side) (having : JVal) : List JVal → Except MatcherErr (List Cat)
  | [] => .ok []
  | f :: rest =>
    match f with
    | .vstr s => (processForms side having rest).map (fun cs => ⟨side, s, having⟩ :: cs)
    | _ => .error .MatcherFormNotAString

/-- The body of the `toCats` matcher loop (common-impl.ts lines 536-559):
object check, accepting-xor-offering truthiness check, then one `Cat` per form
with `having` defaulted via `matcher.having || {}`. -/
def processMatcher (matcher : JVal) : Except MatcherErr (List Cat) :=
  if ¬ (truthy matcher && typeofObject matcher) then .error .MatcherNotAnObject
  else
    let acc := getField matcher "accepting"
    let off := getField matcher "offering"
    if truthy acc = truthy off then .error .MatcherDoesNotHaveAcceptingXorOffering
    else
      let side := if truthy acc then Side.accepting else Side.offering
      let formOrForms := if truthy acc then acc else off
      let having := if truthy (getField matcher "having") then getField matcher "having" else .vobj []
      processForms side having (asList formOrForms)

/-- The matcher loop of `toCats`: process intents in declaration order,
concatenating their Cats, stopping at the first failure. -/
def toCatsLoop : List JVal → Except MatcherErr (List Cat)
  | [] => .ok []
  | m :: rest => do
    let cs ← processMatcher m
    let rest2 ← toCatsLoop rest
    pure (cs ++ rest2)

/-- The function `toCats` (common-impl.ts): normalize an intent or list of
intents into an ordered list of Cats, throwing on the first offending intent
or form. -/
def toCats (matching : JVal) : Except MatcherErr (List Cat) :=
  toCatsLoop (asList matching)

/-- The side selected by a matcher object (the truthy one of the two). -/
def matcherSide (matcher : JVal) : Side :=
  if truthy (getField matcher "accepting") then Side.accepting else Side.offering

/-- The form-or-forms field of a matcher (`matcher.accepting || matcher.offering`). -/
def matcherForms (matcher : JVal) : JVal :=
  if truthy (getField matcher "accepting") then getField matcher "accepting"
  else getField matcher "offering"

/-- The `having` metadata after defaulting (`matcher.having || {}`). -/
def matcherHaving (matcher : JVal) : JVal :=
  if truthy (getField matcher "having") then getField matcher "having" else .vobj []

/-- String payload of a string value. -/
def strOf : JVal → Option String
  | .vstr s => some s
  | _ => none

/-- Whether the value is a string (`typeof f === 'string'`). -/
def isStringVal : JVal → Bool
  | .vstr _ => true
  | _ => false

lemma processForms_error (side : Side) (having : JVal) (forms : List JVal)
    (h : ∃ f ∈ forms, isStringVal f = false) :
    processForms side having forms = .error .MatcherFormNotAString := by
  induction forms with
  | nil => simp at h
  | cons f rest ih =>
    rcases h with ⟨g, hg, hgs⟩
    rcases List.mem_cons.mp hg with rfl | hgr
    · cases g with
      | vstr s => simp [isStringVal] at hgs
      | vundefined => rfl
      | vnull => rfl
      | vbool b => rfl
      | vnum n => rfl
      | varr i es r => rfl
      | vobj fs => rfl
    · cases f with
      | vstr s =>
        show (processForms side having rest).map (fun cs => ⟨side, s, having⟩ :: cs) = _
        rw [ih ⟨g, hgr, hgs⟩]
        rfl
      | vundefined => rfl
      | vnull => rfl
      | vbool b => rfl
      | vnum n => rfl
      | varr i es r => rfl
      | vobj fs => rfl

lemma processForms_ok (side : Side) (having : JVal) (forms : List JVal)
    (h : ∀ f ∈ forms, isStringVal f = true) :
    processForms side having forms
      = .ok ((forms.filterMap strOf).map fun s => ⟨side, s, having⟩) := by
  induction forms with
  | nil => rfl
  | cons f rest ih =>
    have hf := h f (List.mem_cons_self f rest)
    cases f with
    | vstr s =>
      show (processForms side having rest).map (fun cs => ⟨side, s, having⟩ :: cs) = _
      rw [ih (fun g hg => h g (List.mem_cons_of_mem _ hg))]
      rfl
    | vundefined => cases hf
    | vnull => cases hf
    | vbool b => cases hf
    | vnum n => cases hf
    | varr i es r => cases hf
    | vobj fs => cases hf

/-- Whether a value passes the object guard of `toCats`
(`!matcher || typeof matcher !== 'object'` throws). -/
def isObjectVal (v : JVal) : Bool := truthy v && typeofObject v

lemma toCatsLoop_singleton (m : JVal) : toCatsLoop [m] = processMatcher m := by
  show (do
    let cs ← processMatcher m
    let rest2 ← toCatsLoop []
    pure (cs ++ rest2)) = _
  cases hm : processMatcher m with
  | error e => rfl
  | ok cs =>
    show Except.ok (cs ++ []) = _
    rw [List.append_nil]

lemma toCatsLoop_ok_flatten (ms : List JVal) (css : List (List Cat))
    (h : List.Forall₂ (fun m cs => processMatcher m = .ok cs) ms css) :
    toCatsLoop ms = .ok css.flatten := by
  induction h with
  | nil => rfl
  | cons hm _ ih =>
    show (do
      let cs ← processMatcher _
      let rest2 ← toCatsLoop _
      pure (cs ++ rest2)) = _
    rw [hm, ih]
    rfl

lemma toCatsLoop_error (pre : List JVal) (m : JVal) (rest : List JVal) (e : MatcherErr)
    (hpre : ∀ p ∈ pre, ∃ cs, processMatcher p = .ok cs)
    (hm : processMatcher m = .error e) :
    toCatsLoop (pre ++ m :: rest) = .error e := by
  induction pre with
  | nil =>
    show (do
      let cs ← processMatcher m
      let rest2 ← toCatsLoop rest
      pure (cs ++ rest2)) = _
    rw [hm]
    rfl
  | cons p ps ih =>
    obtain ⟨cs, hcs⟩ := hpre p (List.mem_cons_self p ps)
    show (do
      let cs ← processMatcher p
      let rest2 ← toCatsLoop (ps ++ m :: rest)
      pure (cs ++ rest2)) = _
    rw [hcs, ih (fun q hq => hpre q (List.mem_cons_of_mem _ hq))]
    rfl

/-- C7 (amended): `toCats` characterization.  Per intent: a value failing the
object guard gives `MatcherNotAnObject`; an object whose `accepting` and
`offering` fields have equal truthiness gives the side-ambiguity error (note:
truthiness, not mere presence); a non-string among the (possibly multi-valued)
form field gives `MatcherFormNotAString`; otherwise one Cat per form string,
in declared order, side taken from the truthy field and `having` defaulted to
the empty object when falsy.  At the list level: intents are processed in
declaration order with their Cats concatenated in place, and the first
offending intent's error is reported. -/
theorem toCats_characterization :
    (∀ m : JVal, isObjectVal m = false →
        processMatcher m = .error .MatcherNotAnObject)
    ∧ (∀ m : JVal, isObjectVal m = true →
        truthy (getField m "accepting") = truthy (getField m "offering") →
        processMatcher m = .error .MatcherDoesNotHaveAcceptingXorOffering)
    ∧ (∀ m : JVal, isObjectVal m = true →
        truthy (getField m "accepting") ≠ truthy (getField m "offering") →
        (∃ f ∈ asList (matcherForms m), isStringVal f = false) →
        processMatcher m = .error .MatcherFormNotAString)
    ∧ (∀ m : JVal, isObjectVal m = true →
        truthy (getField m "accepting") ≠ truthy (getField m "offering") →
        (∀ f ∈ asList (matcherForms m), isStringVal f = true) →
        processMatcher m
          = .ok (((asList (matcherForms m)).filterMap strOf).map
              fun s => ⟨matcherSide m, s, matcherHaving m⟩))
    ∧ (∀ (id : Nat) (r : Option JVal) (ms : List JVal) (css : List (List Cat)),
        List.Forall₂ (fun m cs => processMatcher m = .ok cs) ms css →
        toCats (.varr id ms r) = .ok css.flatten)
    ∧ (∀ (id : Nat) (r : Option JVal) (pre : List JVal) (m : JVal) (rest : List JVal)
          (e : MatcherErr),
        (∀ p ∈ pre, ∃ cs, processMatcher p = .ok cs) →
        processMatcher m = .error e →
        toCats (.varr id (pre ++ m :: rest) r) = .error e)
    ∧ (∀ m : JVal, isArrayVal m = false → toCats m = processMatcher m) := by
  have hguard : ∀ m : JVal, isObjectVal m = true →
      processMatcher m
        = (if truthy (getField m "accepting") = truthy (getField m "offering") then
            .error .MatcherDoesNotHaveAcceptingXorOffering
          else processForms (matcherSide m) (matcherHaving m) (asList (matcherForms m))) := by
    intro m h
    unfold processMatcher
    rw [show (truthy m && typeofObject m) = true from h]
    rfl
  refine ⟨?_, ?_, ?_, ?_, ?_, ?_, ?_⟩
  · intro m h
    unfold processMatcher
    rw [show (truthy m && typeofObject m) = false from h]
    rfl
  · intro m h1 h2
    rw [hguard m h1, if_pos h2]
  · intro m h1 h2 hex
    rw [hguard m h1, if_neg h2]
    exact processForms_error _ _ _ hex
  · intro m h1 h2 hall
    rw [hguard m h1, if_neg h2]
    exact processForms_ok _ _ _ hall
  · intro id r ms css h
    show toCatsLoop (asList (.varr id ms r)) = _
    exact toCatsLoop_ok_flatten ms css h
  · intro id r pre m rest e hpre hm
    show toCatsLoop (asList (.varr id (pre ++ m :: rest) r)) = _
    exact toCatsLoop_error pre m rest e hpre hm
  · intro m h
    cases m with
    | varr i es r => cases h
    | vundefined => exact toCatsLoop_singleton _
    | vnull => exact toCatsLoop_singleton _
    | vbool b => exact toCatsLoop_singleton _
    | vnum n => exact toCatsLoop_singleton _
    | vstr s => exact toCatsLoop_singleton _
    | vobj fs => exact toCatsLoop_singleton _

/-- C7 counterexample: the claim keys the side-ambiguity failure on property
PRESENCE ("unless exactly one of the accepting-role / offering-role properties
is present"), but the code keys it on truthiness (`!!matcher.accepting ===
!!matcher.offering`): an intent with exactly one of the two properties present
— `accepting: ""`, present but falsy — nevertheless fails with the
side-ambiguity error. -/
theorem toCats_present_not_truthy_counterexample :
    hasField (.vobj [("accepting", .vstr "")]) "accepting" = true
    ∧ hasField (.vobj [("accepting", .vstr "")]) "offering" = false
    ∧ toCats (.vobj [("accepting", .vstr "")])
        = .error .MatcherDoesNotHaveAcceptingXorOffering :=
  ⟨rfl, rfl, rfl⟩

/-- Witness for `toCats_characterization` at concrete intents. -/
theorem toCats_characterization_witness :
    processMatcher (.vnum 5) = .error .MatcherNotAnObject
    ∧ processMatcher (.vobj []) = .error .MatcherDoesNotHaveAcceptingXorOffering
    ∧ processMatcher (.vobj [("accepting", .varr 0 [.vstr "a", .vnum 5] none)])
        = .error .MatcherFormNotAString
    ∧ processMatcher (.vobj [("offering", .vstr "a")])
        = .ok [⟨Side.offering, "a", .vobj []⟩]
    ∧ toCats (.varr 1 [.vobj [("offering", .vstr "a")]] none)
        = .ok [⟨Side.offering, "a", .vobj []⟩]
    ∧ toCats (.varr 1 [.vnum 5] none) = .error .MatcherNotAnObject
    ∧ toCats (.vnum 5) = processMatcher (.vnum 5) := by
  obtain ⟨h1, h2, h3, h4, h5, h6, h7⟩ := toCats_characterization
  refine ⟨h1 _ rfl, h2 _ rfl rfl, ?_, ?_, ?_, ?_, h7 _ rfl⟩
  · refine h3 _ rfl (by decide) ?_
    exact ⟨JVal.vnum 5, List.mem_cons_of_mem _ (List.mem_cons_self _ _), rfl⟩
  · exact h4 _ rfl (by decide) (by decide)
  · exact h5 1 none [.vobj [("offering", .vstr "a")]] [[⟨Side.offering, "a", .vobj []⟩]]
      (List.Forall₂.cons rfl List.Forall₂.nil)
  · exact h6 1 none [] (.vnum 5) [] .MatcherNotAnObject
      (fun p hp => absurd hp (List.not_mem_nil p)) rfl

/-- C4 counterexample: the claim (and spec §8) says `normalize([1,2]).raw` is
"a distinct object from the input array"; in the code `dataArray.raw = data`
stores the input array itself, so the `raw` field is the very same object
(same identity, id 0 here) as the input. -/
theorem arrayify_raw_not_distinct :
    rawOf (arrayify (.varr 0 [.vnum 1, .vnum 2] none) 1)
        = some (.varr 0 [.vnum 1, .vnum 2] none)
    ∧ arrId ((rawOf (arrayify (.varr 0 [.vnum 1, .vnum 2] none) 1)).getD .vundefined)
        = arrId (.varr 0 [.vnum 1, .vnum 2] none) :=
  ⟨rfl, rfl⟩

/-- C4 (amended): DataArray normalization: `normalize(null)` is the empty
sequence; `normalize(5)` is `[5]` with `raw = 5`; `normalize([1,2])` is a
fresh sequence `[1,2]` (new identity, never the input's), whose `raw` field
is the input array itself (the same object, not a distinct one), so
`raw[0] = 1`. -/
theorem arrayify_normalization_spec :
    (∀ fresh : Nat, arrayify .vnull fresh = .varr fresh [] (some .vnull))
    ∧ (∀ fresh : Nat, arrayify (.vnum 5) fresh = .varr fresh [.vnum 5] (some (.vnum 5)))
    ∧ (∀ (fresh id : Nat) (es : List JVal) (r : Option JVal), fresh ≠ id →
        arrayify (.varr id es r) fresh = .varr fresh es (some (.varr id es r))
        ∧ arrId (arrayify (.varr id es r) fresh) = some fresh
        ∧ arrId (.varr id es r) = some id
        ∧ (some fresh : Option Nat) ≠ some id)
    ∧ getIdx ((rawOf (arrayify (.varr 0 [.vnum 1, .vnum 2] none) 1)).getD .vundefined) 0
        = .vnum 1 := by
  refine ⟨fun _ => rfl, fun _ => rfl, ?_, rfl⟩
  intro fresh id es r h
  exact ⟨rfl, rfl, rfl, by simpa using h⟩

/-- Witness for `arrayify_normalization_spec` at concrete inputs. -/
theorem arrayify_normalization_spec_witness :
    arrayify .vnull 3 = .varr 3 [] (some .vnull)
    ∧ arrayify (.varr 0 [.vnum 1, .vnum 2] none) 1
        = .varr 1 [.vnum 1, .vnum 2] (some (.varr 0 [.vnum 1, .vnum 2] none)) := by
  obtain ⟨h1, _, h3, _⟩ := arrayify_normalization_spec
  exact ⟨h1 3, (h3 1 0 [.vnum 1, .vnum 2] none (by decide)).1⟩

/-- C5 counterexample: re-applying normalization does NOT yield a DataArray
with the same `raw` back-reference: `arrayify(arrayify(5))` has `raw` equal to
the first DataArray `[5]`, while `arrayify(5)` has `raw = 5`, and those two
values differ. -/
theorem arrayify_reapply_raw_counterexample :
    rawOf (arrayify (.vnum 5) 0) = some (.vnum 5)
    ∧ rawOf (arrayify (arrayify (.vnum 5) 0) 1)
        = some (.varr 0 [.vnum 5] (some (.vnum 5)))
    ∧ (some (JVal.varr 0 [.vnum 5] (some (.vnum 5))) : Option JVal) ≠ some (JVal.vnum 5) :=
  ⟨rfl, rfl, fun h => JVal.noConfusion (Option.some.inj h)⟩

/-- C5 (amended): normalization is total, and idempotent on the sequence
elements — re-applying `arrayify` to its own output preserves the elements —
but the `raw` back-reference of the re-application is the first output, not
the original value, so the two DataArrays are not equal in general. -/
theorem arrayify_idempotent_elems (v : JVal) (f1 f2 : Nat) :
    elemsOf (arrayify (arrayify v f1) f2) = elemsOf (arrayify v f1)
    ∧ rawOf (arrayify (arrayify v f1) f2) = some (arrayify v f1) :=
  ⟨rfl, rfl⟩

/-- Promise state with first-settlement-wins semantics; `α` is the fulfilment
type, `ε` the rejection-reason type. -/
inductive PromiseState (α : Type) (ε : Type) where
  | pending
  | resolved (v : α)
  | rejected (e : ε)

/-- Operation `resolve(v)`: settles a pending promise, no-op afterwards. -/
def PromiseState.resolveWith : PromiseState α ε → α → PromiseState α ε
  | .pending, v => .resolved v
  | s, _ => s

/-- Operation `reject(e)`: settles a pending promise, no-op afterwards. -/
def PromiseState.rejectWith : PromiseState α ε → ε → PromiseState α ε
  | .pending, e => .rejected e
  | s, _ => s

/-- Rejection reasons arising in `performSend`. -/
inductive SendErr where
  | OfferAlreadyPosted
  deriving DecidableEq, Repr

/-- Per-invocation state of one `postOffer(...)` call in `performSend`:
`waitingInit` records whether the executor reached `let waitingForResult =
true` (in the double-post path it returns before that line, leaving the
binding unassigned — the temporal dead zone); `closingSub` records whether
`closing.then(...)` was subscribed. -/
structure SendCall where
  waitingInit : Bool
  waitingForResult : Bool
  promise : PromiseState JVal SendErr
  closingSub : Bool

/-- State of one `performSend` exchange: the shared `offerPosted` flag, which
call currently owns `port.onmessage`, the per-call states (in call order), the
messages posted on the exchange port, whether a message handler has faulted
(thrown), whether `closing` has fired, and a fresh-id counter for the arrays
`arrayify` allocates. -/
structure SendState where
  offerPosted : Bool
  handlerOwner : Option Nat
  calls : List SendCall
  portMsgs : List JVal
  handlerFault : Bool
  closingFired : Bool
  nextId : Nat

/-- Events that can reach a `performSend` exchange: a `postOffer(data)` call,
an incoming reply message on the port, and the closing signal firing. -/
inductive SendEv where
  | post (data : JVal)
  | reply (data : JVal)
  | closing

/-- Initial `performSend` state. -/
def initSend : SendState :=
  { offerPosted := false, handlerOwner := none, calls := [], portMsgs := [],
    handlerFault := false, closingFired := false, nextId := 0 }

/-- The `closing.then(() => resolve(arrayify(undefined)))` continuations: when
closing fires, each subscribed call's resolve runs (in subscription order),
each evaluating its own `arrayify(undefined)`. -/
def resolveClosingCalls : List SendCall → Nat → List SendCall × Nat
  | [], n => ([], n)
  | c :: rest, n =>
    if c.closingSub then
      let out := resolveClosingCalls rest (n + 1)
      ({ c with promise := c.promise.resolveWith (arrayify .vundefined n) } :: out.1, out.2)
    else
      let out := resolveClosingCalls rest n
      (c :: out.1, out.2)

/-- One step of the `performSend` machine (common-impl.ts lines 579-613).
`post`: the executor first installs `port.onmessage` (even on a double post),
then rejects with `OfferAlreadyPosted` if `offerPosted` is already set —
without sending — and otherwise posts the message, sets up
`waitingForResult` and subscribes to `closing`.  `reply`: the currently
installed handler runs; if the `waitingForResult` binding of its closure was
never assigned, the handler faults (TDZ reference error), otherwise a first reply
resolves that call with the arrayified data and posts the `null` ack.
`closing`: every subscribed call resolves with an empty DataArray
(first-settlement-wins). -/
def stepSend (s : SendState) (e : SendEv) : SendState :=
  match e with
  | .post d =>
    let i := s.calls.length + 1
    if s.offerPosted then
      { s with handlerOwner := some i,
               calls := s.calls ++ [⟨false, false, .rejected .OfferAlreadyPosted, false⟩] }
    else
      { s with handlerOwner := some i,
               offerPosted := true,
               portMsgs := s.portMsgs ++ [d],
               calls := s.calls ++
                 [⟨true, true,
                   if s.closingFired then .resolved (arrayify .vundefined s.nextId) else .pending,
                   true⟩],
               nextId := if s.closingFired then s.nextId + 1 else s.nextId }
  | .reply r =>
    match s.handlerOwner with
    | none => s
    | some i =>
      match s.calls.get? (i - 1) with
      | none => s
      | some c =>
        if ¬ c.waitingInit then { s with handlerFault := true }
        else if c.waitingForResult then
          { s with calls := s.calls.set (i - 1)
                     { c with waitingForResult := false,
                              promise := c.promise.resolveWith (arrayify r s.nextId) },
                   nextId := s.nextId + 1,
                   portMsgs := s.portMsgs ++ [.vnull] }
        else s
  | .closing =>
    let out := resolveClosingCalls s.calls s.nextId
    { s with calls := out.1, nextId := out.2, closingFired := true }

/-- Run the `performSend` machine over a list of events. -/
def runSend (evs : List SendEv) : SendState :=
  evs.foldl stepSend initSend


lemma resolveWith_resolved (v w : α) :
    (PromiseState.resolved v : PromiseState α ε).resolveWith w = .resolved v := rfl

/-- Any event preserves a first call whose promise is already resolved
(promise settlement is first-wins). -/
lemma stepSend_preserves_head_resolved (s : SendState) (e : SendEv) (v : JVal)
    (c : SendCall) (cs : List SendCall)
    (hc : s.calls = c :: cs) (hcp : c.promise = .resolved v) :
    ∃ c2 cs2, (stepSend s e).calls = c2 :: cs2 ∧ c2.promise = .resolved v := by
  cases e with
  | post d =>
    refine ⟨c, cs ++ [if s.offerPosted then ⟨false, false, .rejected .OfferAlreadyPosted, false⟩
      else ⟨true, true,
        if s.closingFired then .resolved (arrayify .vundefined s.nextId) else .pending, true⟩],
      ?_, hcp⟩
    by_cases hp : s.offerPosted <;> simp [stepSend, hp, hc]
  | reply r =>
    cases how : s.handlerOwner with
    | none => exact ⟨c, cs, (by simp [stepSend, how, hc]), hcp⟩
    | some i =>
      cases hi : i - 1 with
      | zero =>
        by_cases hwi : c.waitingInit
        · by_cases hwr : c.waitingForResult
          · refine ⟨{ c with
                      waitingForResult := false
                      promise := c.promise.resolveWith (arrayify r s.nextId) }, cs, ?_, ?_⟩
            · simp [stepSend, how, hc, hi, hwi, hwr]
            · rw [hcp]; rfl
          · exact ⟨c, cs, (by simp [stepSend, how, hc, hi, hwi, hwr]), hcp⟩
        · exact ⟨c, cs, (by simp [stepSend, how, hc, hi, hwi]), hcp⟩
      | succ k =>
        cases hk : cs[k]? with
        | none => exact ⟨c, cs, (by simp [stepSend, how, hc, hi, hk]), hcp⟩
        | some c2 =>
          by_cases hwi : c2.waitingInit
          · by_cases hwr : c2.waitingForResult
            · refine ⟨c, cs.set k { c2 with
                waitingForResult := false
                promise := c2.promise.resolveWith (arrayify r s.nextId) }, ?_, hcp⟩
              simp [stepSend, how, hc, hi, hk, hwi, hwr]
            · exact ⟨c, cs, (by simp [stepSend, how, hc, hi, hk, hwi, hwr]), hcp⟩
          · exact ⟨c, cs, (by simp [stepSend, how, hc, hi, hk, hwi]), hcp⟩
  | closing =>
    by_cases hsub : c.closingSub
    · refine ⟨{ c with promise := c.promise.resolveWith (arrayify .vundefined s.nextId) },
        (resolveClosingCalls cs (s.nextId + 1)).1, ?_, ?_⟩
      · show (resolveClosingCalls s.calls s.nextId).1 = _
        rw [hc]
        simp [resolveClosingCalls, hsub]
      · rw [hcp]; rfl
    · refine ⟨c, (resolveClosingCalls cs s.nextId).1, ?_, hcp⟩
      show (resolveClosingCalls s.calls s.nextId).1 = _
      rw [hc]
      simp [resolveClosingCalls, hsub]

/-- C6: closing race of the offering role.  After the offer has been posted
(one successful `postOffer`), if the closing signal fires before any reply
arrives, the send promise resolves with an empty DataArray (`[]` with
`raw = undefined`) — it never rejects — and no later event (in particular no
later-arriving reply) changes that resolution. -/
theorem performSend_closing_race (d : JVal) (rest : List SendEv) :
    ((runSend (.post d :: .closing :: rest)).calls.head?).map SendCall.promise
      = some (.resolved (.varr 0 [] (some .vundefined))) := by
  have hrun : runSend (.post d :: .closing :: rest)
      = rest.foldl stepSend (runSend [.post d, .closing]) := by
    show (([SendEv.post d, SendEv.closing] : List SendEv) ++ rest).foldl stepSend initSend = _
    rw [List.foldl_append]
    rfl
  have fold_pres : ∀ (es : List SendEv) (s0 : SendState) (c : SendCall) (cs : List SendCall),
      s0.calls = c :: cs → c.promise = .resolved (.varr 0 [] (some .vundefined)) →
      ∃ c2 cs2, (es.foldl stepSend s0).calls = c2 :: cs2
        ∧ c2.promise = .resolved (.varr 0 [] (some .vundefined)) := by
    intro es
    induction es with
    | nil => intro s0 c cs hc hcp; exact ⟨c, cs, hc, hcp⟩
    | cons e es2 ih =>
      intro s0 c cs hc hcp
      obtain ⟨c2, cs2, hc2, hcp2⟩ := stepSend_preserves_head_resolved s0 e _ c cs hc hcp
      exact ih (stepSend s0 e) c2 cs2 hc2 hcp2
  rw [hrun]
  obtain ⟨c2, cs2, hc2, hcp2⟩ := fold_pres rest (runSend [.post d, .closing])
    (⟨true, true, PromiseState.resolved (JVal.varr 0 [] (some JVal.vundefined)), true⟩ : SendCall)
    [] rfl rfl
  rw [hc2]
  show some c2.promise = _
  rw [hcp2]

/-- C2 (evaluation at the failing input): a second `postOffer` call rejects
with `OfferAlreadyPosted` and sends nothing further — those parts of the claim
hold — but it DOES alter the first call's pending resolution: because the
executor reassigns `port.onmessage` before the `offerPosted` guard, and the
`waitingForResult` binding of the new closure is never assigned (temporal dead
zone), a reply arriving after the double post makes the installed handler
fault and is dropped, leaving the first call's promise pending forever,
whereas without the second call the same reply resolves it with the
arrayified reply data. -/
theorem performSend_double_post_divergence :
    ((runSend [.post (.vstr "a"), .post (.vstr "b"), .reply (.vstr "r")]).calls.get? 1).map
        SendCall.promise = some (PromiseState.rejected SendErr.OfferAlreadyPosted)
    ∧ (runSend [.post (.vstr "a"), .post (.vstr "b"), .reply (.vstr "r")]).portMsgs
        = [.vstr "a"]
    ∧ (runSend [.post (.vstr "a"), .post (.vstr "b"), .reply (.vstr "r")]).handlerFault = true
    ∧ ((runSend [.post (.vstr "a"), .post (.vstr "b"), .reply (.vstr "r")]).calls.get? 0).map
        SendCall.promise = some PromiseState.pending
    ∧ ((runSend [.post (.vstr "a"), .reply (.vstr "r")]).calls.get? 0).map SendCall.promise
        = some (PromiseState.resolved (.varr 0 [.vstr "r"] (some (.vstr "r")))) :=
  ⟨rfl, rfl, rfl, rfl, rfl⟩

/-- State of one `performRecv` exchange (common-impl.ts lines 615-701): the
four waiting flags, the value the overall promise will resolve with
(starting out as `arrayify(undefined)`), the ports that arrived with the offer,
the arrayified offer data, the overall promise, the `postResultPromise`
returned by `postResult`, messages posted back on the exchange port, ports
closed so far, and the fresh-id counter for `arrayify`. -/
structure RecvState where
  waitingForOffer : Bool
  waitingForCallback : Bool
  waitingForAck : Bool
  waitingForResult : Bool
  resolveValue : JVal
  offerPorts : Option (List Nat)
  offerData : Option JVal
  promise : PromiseState JVal JVal
  postResultPromise : PromiseState Bool JVal
  portMsgs : List JVal
  closedPorts : List Nat
  nextId : Nat

/-- Events that can reach a `performRecv` exchange.  The consumer callback is
the caller-supplied `using(offer, postResult)` function, so its actions are
events from outside the machine: it may call `postResult`, and its promise settles
or rejects. -/
inductive RecvEv where
  | portMessage (data : JVal) (ports : List Nat)
  | consumerPostsResult (data : JVal)
  | consumerSettles (v : JVal)
  | consumerRejects (r : JVal)
  | closing

/-- Initial `performRecv` state: `resolveValue = arrayify(undefined)` consumes
the first fresh id. -/
def initRecv : RecvState :=
  { waitingForOffer := true, waitingForCallback := false, waitingForAck := true,
    waitingForResult := true, resolveValue := arrayify .vundefined 0,
    offerPorts := none, offerData := none, promise := .pending,
    postResultPromise := .pending, portMsgs := [], closedPorts := [], nextId := 1 }

/-- One step of the `performRecv` machine.  First port message: record the
arrayified offer and its ports and invoke the consumer.  Second port message
(the ack): resolve `postResultPromise` with true, post the `null` echo, and
resolve the overall promise if the consumer is no longer pending.  Consumer
settlement: record the value; auto-post a `null` result if none was posted,
else resolve if the ack already arrived (or closing cleared it).  Consumer
rejection: reject the overall promise.  `postResult` reuse after a post is
`ResultAlreadyPosted` (rejects only the capability's returned promise; no
machine-state change).  Closing: resolve `postResultPromise` with false, stop
waiting for the ack, resolve the overall promise only if the consumer is not
pending, and close any ports that arrived with the offer. -/
def stepRecv (s : RecvState) (e : RecvEv) : RecvState :=
  match e with
  | .portMessage data ports =>
    if s.waitingForOffer then
      { s with waitingForOffer := false,
               offerData := some (arrayify data s.nextId),
               nextId := s.nextId + 1,
               offerPorts := some ports,
               waitingForCallback := true }
    else if s.waitingForAck then
      { s with postResultPromise := s.postResultPromise.resolveWith true,
               waitingForAck := false,
               portMsgs := s.portMsgs ++ [.vnull],
               promise := if s.waitingForCallback then s.promise
                          else s.promise.resolveWith s.resolveValue }
    else s
  | .consumerPostsResult d =>
    if s.waitingForOffer then s
    else if s.waitingForResult then
      { s with waitingForResult := false, portMsgs := s.portMsgs ++ [d] }
    else s
  | .consumerSettles v =>
    if s.waitingForCallback then
      if s.waitingForResult then
        { s with waitingForCallback := false, resolveValue := v,
                 waitingForResult := false, portMsgs := s.portMsgs ++ [.vnull] }
      else if ¬ s.waitingForAck then
        { s with waitingForCallback := false, resolveValue := v,
                 promise := s.promise.resolveWith v }
      else
        { s with waitingForCallback := false, resolveValue := v }
    else s
  | .consumerRejects r =>
    if s.waitingForCallback then
      { s with waitingForCallback := false, promise := s.promise.rejectWith r }
    else s
  | .closing =>
    { s with postResultPromise := s.postResultPromise.resolveWith false,
             waitingForAck := false,
             promise := if s.waitingForCallback then s.promise
                        else s.promise.resolveWith s.resolveValue,
             closedPorts := s.closedPorts ++ s.offerPorts.getD [] }

/-- Run the `performRecv` machine over a list of events. -/
def runRecv (evs : List RecvEv) : RecvState :=
  evs.foldl stepRecv initRecv

/-- C3 counterexample: the claim says that when closing fires before the ack
"including while the consumer callback's promise is still pending" the receive
operation "resolves immediately"; but in the code the closing continuation
only resolves when `waitingForCallback` is false.  Concretely: an offer
arrives (consumer invoked, its promise pending), then closing fires — the
overall promise is still pending afterwards (the ports that arrived with the
offer are closed, though). -/
theorem performRecv_closing_pending_counterexample :
    (runRecv [.portMessage (.vstr "offer") [7], .closing]).promise = PromiseState.pending
    ∧ (runRecv [.portMessage (.vstr "offer") [7], .closing]).waitingForCallback = true
    ∧ (runRecv [.portMessage (.vstr "offer") [7], .closing]).closedPorts = [7] :=
  ⟨rfl, rfl, rfl⟩

/-- C3 (amended): in the accepting role, when the closing signal fires before
the sender's ack has been received and the consumer callback is NOT pending,
the receive operation resolves immediately with whatever the consumer has
produced so far (`resolveValue`, which starts out as the empty DataArray and
is only replaced by the consumer's settled value), and closes any
MessagePorts that arrived with the offer; when the consumer callback IS still
pending, the ports are closed all the same but the overall promise is left
untouched (resolution is deferred).  In particular a closing signal reaching
the machine before any offer resolves it with the initial empty DataArray. -/
theorem performRecv_closing_resolves (s : RecvState)
    (_hAck : s.waitingForAck = true) :
    (s.waitingForCallback = false →
      (stepRecv s .closing).promise = s.promise.resolveWith s.resolveValue)
    ∧ (s.waitingForCallback = true → (stepRecv s .closing).promise = s.promise)
    ∧ (∀ ps, s.offerPorts = some ps →
        (stepRecv s .closing).closedPorts = s.closedPorts ++ ps)
    ∧ initRecv.resolveValue = .varr 0 [] (some .vundefined)
    ∧ (runRecv [.closing]).promise = .resolved (.varr 0 [] (some .vundefined)) := by
  refine ⟨?_, ?_, ?_, rfl, rfl⟩
  · intro h
    simp [stepRecv, h]
  · intro h
    simp [stepRecv, h]
  · intro ps hps
    simp [stepRecv, hps]

/-- Witness for `performRecv_closing_resolves` at a concrete state: consumer
already settled (value `"v"`), ack not yet received, ports `[3, 4]` from the
offer; closing resolves with the consumer's value and closes the ports. -/
theorem performRecv_closing_resolves_witness :
    (stepRecv
      { waitingForOffer := false, waitingForCallback := false, waitingForAck := true,
        waitingForResult := false, resolveValue := .vstr "v",
        offerPorts := some [3, 4], offerData := some (.varr 1 [.vstr "o"] (some (.vstr "o"))),
        promise := .pending, postResultPromise := .pending, portMsgs := [.vnull],
        closedPorts := [], nextId := 2 }
      .closing).promise = PromiseState.resolved (.vstr "v")
    ∧ (stepRecv
      { waitingForOffer := false, waitingForCallback := false, waitingForAck := true,
        waitingForResult := false, resolveValue := .vstr "v",
        offerPorts := some [3, 4], offerData := some (.varr 1 [.vstr "o"] (some (.vstr "o"))),
        promise := .pending, postResultPromise := .pending, portMsgs := [.vnull],
        closedPorts := [], nextId := 2 }
      .closing).closedPorts = [3, 4] := by
  obtain ⟨h1, h2, h3, h4, h5⟩ := performRecv_closing_resolves
    { waitingForOffer := false, waitingForCallback := false, waitingForAck := true,
      waitingForResult := false, resolveValue := .vstr "v",
      offerPorts := some [3, 4], offerData := some (.varr 1 [.vstr "o"] (some (.vstr "o"))),
      promise := .pending, postResultPromise := .pending, portMsgs := [.vnull],
      closedPorts := [], nextId := 2 }
    rfl
  exact ⟨h1 rfl, h3 [3, 4] rfl⟩

/-- Errors of the service-side `openRequest` (modal-service). -/
inductive OpenErr where
  | AlreadyOpened
  | matcher (e : MatcherErr)
  deriving DecidableEq, Repr

/-- Outcome of the pure part of the service-side `openRequest`: either no
eligible pairing (`{ matched: null }`) or the pairing the exchange proceeds
with. -/
inductive OpenOutcome where
  | notMatched
  | matched (cat : Cat) (peer : PeerIntent)

/-- The service-side `openRequest` (src/unnamed/part_000 lines 204-264), up to
the point where a matched exchange is handed to the Cat's `connect`: reject
with `AlreadyOpened` if the `State.opened` flag is set; set the flag; then
normalize the intents (`toCats` failures become rejections via the
try/catch) and run the nested matching loop against the captured peer
options; no pairing resolves `{ matched: null }`.  Returns the outcome
together with the new `State.opened` flag. -/
def openRequest (opened : Bool) (matching : JVal) (peerOpts : List PeerIntent) :
    Except OpenErr OpenOutcome × Bool :=
  if opened then (.error .AlreadyOpened, opened)
  else
    match toCats matching with
    | .error e => (.error (.matcher e), true)
    | .ok cats =>
      match matchCats cats peerOpts with
      | none => (.ok .notMatched, true)
      | some (cat, peer) => (.ok (.matched cat peer), true)

/-- Errors of the requester-side `onConnect` (modal-request.ts, Jakefile.js
lines 733-786). -/
inductive ConnectErr where
  | AlreadyConnected
  | InvalidConnectMessage
  | NoMatchingConnector
  deriving DecidableEq, Repr

/-- The selection loop of `onConnect`: skip cats on the peer's side, skip cats
with a different form, otherwise overwrite — the last eligible own Cat wins. -/
def pickConnector (cats : List Cat) (side : Side) (form : String) : Option Cat :=
  cats.foldl
    (fun acc cat =>
      if cat.side = side then acc
      else if cat.form ≠ form then acc
      else some cat)
    none

/-- The requester-side `onConnect` handler: `AlreadyConnected` when an
exchange port is already set, structural validation of the connect message
(`['connect', side, form, having]` plus exactly two ports), then Matcher
against the own cats; no eligible Cat throws `NoMatchingConnector`, which
fails the session (the caller routes the thrown error into the cancellation
routine, rejecting the open promise). -/
def onConnect (alreadyConnected : Bool) (origin : String) (data : JVal)
    (portCount : Nat) (cats : List Cat) : Except ConnectErr (Cat × PeerIntent) :=
  if alreadyConnected then .error .AlreadyConnected
  else if ¬ isArrayVal data then .error .InvalidConnectMessage
  else
    match getIdx data 0 with
    | .vstr "connect" =>
      if portCount ≠ 2 then .error .InvalidConnectMessage
      else
        match getIdx data 1 with
        | .vstr sideStr =>
          if sideStr = "accepting" ∨ sideStr = "offering" then
            let side := if sideStr = "accepting" then Side.accepting else Side.offering
            match getIdx data 2 with
            | .vstr form =>
              if ¬ typeofObject (getIdx data 3) then .error .InvalidConnectMessage
              else
                match pickConnector cats side form with
                | none => .error .NoMatchingConnector
                | some cat => .ok (cat, ⟨origin, side, form, getIdx data 3⟩)
            | _ => .error .InvalidConnectMessage
          else .error .InvalidConnectMessage
        | _ => .error .InvalidConnectMessage
    | _ => .error .InvalidConnectMessage

/-- Wire name of a side. -/
def sideName : Side → String
  | .accepting => "accepting"
  | .offering => "offering"

lemma matchCats_none_of_no_eligible (cats : List Cat) (opts : List PeerIntent)
    (h : ∀ c ∈ cats, ∀ p ∈ opts, ¬ eligiblePair c p) : matchCats cats opts = none := by
  rw [matchCats_eq_lastOr, (eligPairs_eq_nil_iff cats opts).mpr h]
  rfl

lemma pickConnector_none (cats : List Cat) (side : Side) (form : String)
    (h : ∀ c ∈ cats, ¬ (c.side ≠ side ∧ c.form = form)) :
    pickConnector cats side form = none := by
  have aux : ∀ (cs : List Cat), (∀ c ∈ cs, ¬ (c.side ≠ side ∧ c.form = form)) →
      ∀ acc : Option Cat,
        cs.foldl (fun acc cat => if cat.side = side then acc
          else if cat.form ≠ form then acc else some cat) acc = acc := by
    intro cs
    induction cs with
    | nil => intro _ acc; rfl
    | cons c rest ih =>
      intro hh acc
      rw [List.foldl_cons]
      have hc := hh c (List.mem_cons_self c rest)
      by_cases h1 : c.side = side
      · rw [if_pos h1]
        exact ih (fun d hd => hh d (List.mem_cons_of_mem _ hd)) acc
      · rw [if_neg h1]
        have h2 : c.form ≠ form := fun hf => hc ⟨h1, hf⟩
        rw [if_pos h2]
        exact ih (fun d hd => hh d (List.mem_cons_of_mem _ hd)) acc
  exact aux cats h none

/-- C8: no-match outcomes are asymmetric.  Requester side: a structurally
valid peer connect selection with no eligible own Cat makes `onConnect` throw
`NoMatchingConnector` — an error that fails the session.  Service side: `open`
with no eligible pairing against the captured peer options is not an error;
it resolves normally with `{ matched: null }`. -/
theorem noMatch_asymmetry :
    (∀ (origin form : String) (having : JVal) (i : Nat) (side : Side) (cats : List Cat),
      typeofObject having = true →
      (∀ c ∈ cats, ¬ (c.side ≠ side ∧ c.form = form)) →
      onConnect false origin
        (.varr i [.vstr "connect", .vstr (sideName side), .vstr form, having] none) 2 cats
        = .error .NoMatchingConnector)
    ∧ (∀ (matching : JVal) (cats : List Cat) (opts : List PeerIntent),
      toCats matching = .ok cats →
      (∀ c ∈ cats, ∀ p ∈ opts, ¬ eligiblePair c p) →
      openRequest false matching opts = (.ok .notMatched, true)) := by
  constructor
  · intro origin form having i side cats hhav h
    cases side with
    | accepting =>
      have hred : onConnect false origin
          (.varr i [.vstr "connect", .vstr "accepting", .vstr form, having] none) 2 cats
          = if ¬ typeofObject having then .error .InvalidConnectMessage
            else match pickConnector cats Side.accepting form with
              | none => .error .NoMatchingConnector
              | some cat => .ok (cat, ⟨origin, Side.accepting, form, having⟩) := rfl
      simp only [sideName]
      rw [hred, if_neg (fun hcon => hcon hhav), pickConnector_none cats Side.accepting form h]
    | offering =>
      have hred : onConnect false origin
          (.varr i [.vstr "connect", .vstr "offering", .vstr form, having] none) 2 cats
          = if ¬ typeofObject having then .error .InvalidConnectMessage
            else match pickConnector cats Side.offering form with
              | none => .error .NoMatchingConnector
              | some cat => .ok (cat, ⟨origin, Side.offering, form, having⟩) := rfl
      simp only [sideName]
      rw [hred, if_neg (fun hcon => hcon hhav), pickConnector_none cats Side.offering form h]
  · intro matching cats opts htc h
    have h1 : openRequest false matching opts
        = (match matchCats cats opts with
            | none => (.ok .notMatched, true)
            | some (cat, peer) => (.ok (.matched cat peer), true)) := by
      unfold openRequest
      rw [htc]
      rfl
    rw [h1, matchCats_none_of_no_eligible cats opts h]


/-- Witness for `noMatch_asymmetry` at concrete inputs: the peer selects
`accepting "a"` but the only own Cat is also `accepting "a"` (same side, so
ineligible) — requester errors; the service's only Cat is `offering "b"` and
the captured peer option is also `offering "b"` — service resolves
NotMatched. -/
theorem noMatch_asymmetry_witness :
    onConnect false "o"
      (.varr 0 [.vstr "connect", .vstr "accepting", .vstr "a", .vobj []] none) 2
      [⟨Side.accepting, "a", .vobj []⟩] = .error .NoMatchingConnector
    ∧ openRequest false (.vobj [("offering", .vstr "b")])
        [⟨"p", Side.offering, "b", .vobj []⟩] = (.ok .notMatched, true) := by
  obtain ⟨h1, h2⟩ := noMatch_asymmetry
  refine ⟨h1 "o" "a" (.vobj []) 0 Side.accepting [⟨Side.accepting, "a", .vobj []⟩] rfl ?_,
    h2 (.vobj [("offering", .vstr "b")]) [⟨Side.offering, "b", .vobj []⟩]
      [⟨"p", Side.offering, "b", .vobj []⟩] rfl ?_⟩
  · intro c hc
    rw [List.mem_singleton] at hc
    subst hc
    exact fun hcon => hcon.1 rfl
  · intro c hc p hp
    rw [List.mem_singleton] at hc
    rw [List.mem_singleton] at hp
    subst hc
    subst hp
    exact fun hcon => hcon.1 rfl

/-- C10: the service-side `open` consumes its single shot regardless of
outcome: the `State.opened` flag is set before intent normalization and
matching, so after any first invocation — whatever its result — every
subsequent invocation rejects with `AlreadyOpened`. -/
theorem openRequest_single_shot (matching m2 : JVal) (opts opts2 : List PeerIntent) :
    (openRequest false matching opts).2 = true
    ∧ openRequest (openRequest false matching opts).2 m2 opts2
        = (.error .AlreadyOpened, true) := by
  have hflag : (openRequest false matching opts).2 = true := by
    unfold openRequest
    cases htc : toCats matching with
    | error e => simp [htc]
    | ok cats =>
      cases hm : matchCats cats opts with
      | none => simp [htc, hm]
      | some cp => cases cp with | mk cat peer => simp [htc, hm]
  refine ⟨hflag, ?_⟩
  rw [hflag]
  rfl

/-- Lifecycle state of a requester session (`'created' | 'open' | 'complete'`;
`open` is a Lean keyword, hence `opened`). -/
inductive LState where
  | created
  | opened
  | complete
  deriving DecidableEq, Repr

/-- Value the requester's primary `open()` promise resolves with. -/
inductive ReqResult where
  | notMatched
  | matched (peer : PeerIntent) (value : JVal)

/-- Observable state of the requester-side `createZImpl` closure: lifecycle
state, the `open()` promise, whether `closingPromise` has been resolved,
whether this request is the process-wide `ModalRequest.current`, the proxy
iframe / overlay / unload-listener flags, the exchange and status ports (once
a connect succeeded), messages posted on the status port, and closed ports. -/
structure ReqState where
  state : LState
  openPromise : PromiseState ReqResult JVal
  closingResolved : Bool
  isCurrent : Bool
  hasProxy : Bool
  overlayOpen : Bool
  unloadListenerOn : Bool
  exchangePort : Option Nat
  statusPort : Option Nat
  statusMsgs : List JVal
  closedPorts : List Nat

/-- The `['done']` datagram posted on the status port. -/
def doneMsg : JVal := .varr 0 [.vstr "done"] none

/-- The requester-side cancellation routine `x(reason?)` of `createZImpl`
(Jakefile.js lines 788-821): early-return when already complete; otherwise
force `complete`, clear the `ModalRequest.current` singleton, tear down the
proxy, resolve the closing promise, then — `if (reason)` — reject the open
promise with the reason (truthiness test), else resolve it `{matched: null}`
when no exchange port was ever set; finally close the overlay, remove the
unload listener, close the exchange port and post `['done']` on and close the
status port. -/
def cancelX (reason : JVal) (s : ReqState) : ReqState :=
  if s.state = .complete then s
  else
    { s with
      state := .complete
      isCurrent := false
      hasProxy := false
      closingResolved := true
      openPromise :=
        if truthy reason then s.openPromise.rejectWith reason
        else if s.exchangePort = none then s.openPromise.resolveWith .notMatched
        else s.openPromise
      overlayOpen := false
      unloadListenerOn := false
      statusMsgs := s.statusMsgs ++ (match s.statusPort with
        | some _ => [doneMsg]
        | none => [])
      closedPorts := s.closedPorts ++ s.exchangePort.toList ++ s.statusPort.toList }

/-- C9 counterexample: the claim says that if a rejectReason argument is
given, the open outcome is a failure carrying it "regardless of the exchange
state".  Two concrete refutations.  A falsy reason (`false`) is given to a
session that is open with no exchange port: the code's `if (reason)` test
skips the rejection and the outcome is the SUCCESS `{matched: null}`.  A
truthy reason is given after the exchange completed (open promise already
resolved `Matched`): promise settlement is first-wins, so the outcome stays
`Matched` and carries no failure. -/
theorem cancel_reject_reason_counterexample :
    (cancelX (.vbool false)
      { state := .opened, openPromise := .pending, closingResolved := false,
        isCurrent := true, hasProxy := true, overlayOpen := false,
        unloadListenerOn := true, exchangePort := none, statusPort := none,
        statusMsgs := [], closedPorts := [] }).openPromise
      = PromiseState.resolved ReqResult.notMatched
    ∧ (cancelX (.vstr "boom")
      { state := .opened,
        openPromise := .resolved (.matched ⟨"o", Side.offering, "f", .vobj []⟩ (.vstr "h")),
        closingResolved := false, isCurrent := true, hasProxy := true,
        overlayOpen := false, unloadListenerOn := true, exchangePort := some 1,
        statusPort := some 2, statusMsgs := [], closedPorts := [] }).openPromise
      = PromiseState.resolved (.matched ⟨"o", Side.offering, "f", .vobj []⟩ (.vstr "h")) :=
  ⟨rfl, rfl⟩

/-- C9 (amended): requester cancel.  `cancel` after the session is already
`complete` is a no-op; `cancel` always leaves the session in `complete`; and
when a TRUTHY rejectReason is given to a cancel that finds the session not
yet complete while the open promise is still unsettled, the open outcome is a
failure carrying that reason. -/
theorem cancel_spec (s : ReqState) (reason : JVal) :
    (s.state = .complete → cancelX reason s = s)
    ∧ (cancelX reason s).state = .complete
    ∧ (s.state ≠ .complete → truthy reason = true → s.openPromise = .pending →
        (cancelX reason s).openPromise = .rejected reason) := by
  refine ⟨?_, ?_, ?_⟩
  · intro h
    simp [cancelX, h]
  · by_cases h : s.state = .complete
    · simp [cancelX, h]
    · simp [cancelX, h]
  · intro h1 h2 h3
    simp [cancelX, h1, h2, h3, PromiseState.rejectWith]

/-- Witness for `cancel_spec` at concrete states: cancelling an already
complete session is the identity; cancelling an open session with a pending
promise and truthy reason completes it and rejects the open promise with the
reason. -/
theorem cancel_spec_witness :
    cancelX (.vstr "r")
      { state := .complete, openPromise := .resolved .notMatched,
        closingResolved := true, isCurrent := false, hasProxy := false,
        overlayOpen := false, unloadListenerOn := false, exchangePort := none,
        statusPort := none, statusMsgs := [doneMsg], closedPorts := [] }
      = { state := .complete, openPromise := .resolved .notMatched,
          closingResolved := true, isCurrent := false, hasProxy := false,
          overlayOpen := false, unloadListenerOn := false, exchangePort := none,
          statusPort := none, statusMsgs := [doneMsg], closedPorts := [] }
    ∧ (cancelX (.vstr "r")
      { state := .opened, openPromise := .pending, closingResolved := false,
        isCurrent := true, hasProxy := true, overlayOpen := true,
        unloadListenerOn := true, exchangePort := none, statusPort := none,
        statusMsgs := [], closedPorts := [] }).state = .complete
    ∧ (cancelX (.vstr "r")
      { state := .opened, openPromise := .pending, closingResolved := false,
        isCurrent := true, hasProxy := true, overlayOpen := true,
        unloadListenerOn := true, exchangePort := none, statusPort := none,
        statusMsgs := [], closedPorts := [] }).openPromise
      = PromiseState.rejected (.vstr "r") := by
  refine ⟨(cancel_spec _ (.vstr "r")).1 rfl,
    (cancel_spec _ (.vstr "r")).2.1,
    (cancel_spec _ (.vstr "r")).2.2 ?_ rfl rfl⟩
  intro h
  cases h
